import Mathlib

/-!
Verification development for the `ori` FITS-catalog tool, shallowly embedding
the core of `src/ori/index.py` (the tabular index, row masking, faceted value
drill-down, calibration-frame resolution, reorganize planning and the sync
engine).  Pandas DataFrames are modelled as lists of records keyed by file
path; floating-point header values are modelled as exact rationals; pandas
boolean-mask selection is `maskFilter`; pandas `Series.unique` /
`DataFrame.drop_duplicates` (first-occurrence kept) is `dedupF`.
-/

namespace Ori

/-- Model of pandas boolean-mask row selection `df.loc[mask]`: keep the rows
whose mask entry is `true` (the mask and the row list are walked in
parallel). -/
def maskFilter {α : Type} (rows : List α) (mask : List Bool) : List α :=
  (rows.zip mask).filterMap (fun p => if p.2 then some p.1 else none)

/-- Model of pandas `unique` / `drop_duplicates`: de-duplicate keeping the
first occurrence of each value, in order of first appearance (later
occurrences are filtered out of the recursively de-duplicated tail). -/
def dedupF {α : Type} [DecidableEq α] : List α → List α
  | [] => []
  | a :: as => a :: (dedupF as).filter (fun b => b ≠ a)

/-- Status column (`_STATUS`) attached by `Index.calibration_frames` to the
outer-join result: `'both' ↦ 'Available'`, `'left_only' ↦ 'Missing'`
(`'right_only'` rows are dropped by the `query`). -/
inductive Status where
  | available
  | missing
deriving DecidableEq, Repr

/-- One table row as seen by the calibration resolvers: the file key, the
derived image-type label `_IMAGETYP`, and the row's projection onto the
configured match attributes of the calibration type.  `key = none` models a
projection in which some match attribute is missing (pandas `NaN`), which
`dropna` removes on the target side and which can never match on the
candidate side. -/
structure CalRow (κ : Type) where
  file : String
  imgtyp : String
  key : Option κ
deriving DecidableEq, Repr

/-- One row of the classified outer-join result of
`Index.calibration_frames`: the match-attribute combination, its status, and
for `Available` rows the matching calibration file (the `file` column of the
right side of the merge; `none` for `Missing` rows, where pandas leaves
`NaN`). -/
structure CalEntry (κ : Type) where
  key : κ
  status : Status
  file : Option String
deriving DecidableEq, Repr

/-- Target side of `Index.calibration_frames`: masked rows whose derived
image type is in the calibration type's `targets` list, projected onto the
match attributes, de-duplicated (`drop_duplicates`) and stripped of
combinations with missing values (`dropna`). -/
def target_keys {κ : Type} [DecidableEq κ] (rows : List (CalRow κ))
    (mask : List Bool) (tgs : List String) : List κ :=
  (dedupF (((maskFilter rows mask).filter (fun r => r.imgtyp ∈ tgs)).map
    (fun r => r.key))).filterMap id

/-- Candidate side of `Index.calibration_frames`: all rows (mask ignored)
whose derived image type equals the calibration type. -/
def cand_rows {κ : Type} (rows : List (CalRow κ)) (ct : String) :
    List (CalRow κ) :=
  rows.filter (fun r => r.imgtyp = ct)

/-- The slice of the outer-join result contributed by one target
combination: each matching candidate row as an `Available` entry, or — when
no candidate matches — a single `Missing` entry (`left_only` in the merge
indicator). -/
def joinPiece {κ : Type} [DecidableEq κ] (rows : List (CalRow κ)) (ct : String)
    (k : κ) : List (CalEntry κ) :=
  if ((cand_rows rows ct).filter (fun c => c.key = some k)).isEmpty then
    [⟨k, Status.missing, none⟩]
  else
    ((cand_rows rows ct).filter (fun c => c.key = some k)).map
      (fun c => ⟨k, Status.available, some c.file⟩)

/-- Model of the outer merge + indicator + query + status assignment of
`Index.calibration_frames` (and of `calibration_frames2`, which shares the
identical join skeleton): every target combination appears, paired with each
matching candidate file as `Available`, or alone as `Missing`; candidate
combinations with no matching target (`right_only`) are excluded. -/
def calibrationJoin {κ : Type} [DecidableEq κ] (rows : List (CalRow κ))
    (mask : List Bool) (ct : String) (tgs : List String) : List (CalEntry κ) :=
  (target_keys rows mask tgs).flatMap (joinPiece rows ct)

/-- Python's built-in `round` to an integer (used by `normalize_temps`) and
numpy/pandas rounding both round half-to-even; header values are modelled as
exact rationals.  `Int.fdiv q.num q.den` is `⌊q⌋` and `r` is the numerator
of the fractional part over `q.den`, so the fractional part is below /
above / exactly one half according as `2 * r` compares with `q.den` (the
comparison is kept in integer arithmetic so that the function evaluates by
kernel reduction). -/
def roundHalfEven (q : ℚ) : ℤ :=
  let n := Int.fdiv q.num q.den
  let r := q.num - n * q.den
  if 2 * r < (q.den : ℤ) then n
  else if (q.den : ℤ) < 2 * r then n + 1
  else if n % 2 = 0 then n else n + 1

/-- The fixed list of `normal_temps` setpoints inside
`Index.__init__.normalize_temps`. -/
def normal_temps : List ℤ := [0, -10, -15, -20]

/-- Model of `Index.__init__.normalize_temps` on a present (non-NaN) raw
CCD temperature: round, then snap to a normal setpoint one degree away if
there is one (`round(t)+1` checked before `round(t)-1`). -/
def normalize_temps (t : ℚ) : ℤ :=
  if roundHalfEven t + 1 ∈ normal_temps then roundHalfEven t + 1
  else if roundHalfEven t - 1 ∈ normal_temps then roundHalfEven t - 1
  else roundHalfEven t

/-- Model of the `"{:g}C".format` step applied to the integer returned by
`normalize_temps`: Python's general format prints an integer-valued argument
of this magnitude range as its plain decimal numeral, so the derived string
is the decimal numeral followed by the temperature unit marker `C`. -/
def ccdtemp_format (z : ℤ) : String := toString z ++ "C"

/-- The derived `_CCDTEMP` column of `Index.__init__`: for a missing raw
`CCD-TEMP` the `astype('float')`/`map` pipeline carries NaN through
`normalize_temps` (the `pd.isna` early return) into `"{:g}C".format`, which
renders the string `"nanC"`; otherwise the normalized, formatted value. -/
def ccdtempStr : Option ℚ → String
  | none => "nanC"
  | some t => ccdtemp_format (normalize_temps t)

/-- The rational `q * 10 ^ d`, built directly from the numerator and the
denominator so that it evaluates by kernel reduction. -/
def scalePow10 (d : ℤ) (q : ℚ) : ℚ :=
  if 0 ≤ d then mkRat (q.num * (10 : ℤ) ^ d.toNat) q.den
  else mkRat q.num (q.den * 10 ^ (-d).toNat)

/-- Pandas `Series.round(d)` on an exact rational: round half-to-even at `d`
decimal digits, i.e. `roundHalfEven (q * 10 ^ d) / 10 ^ d` (`d` may be
negative, rounding to a power of ten), as used by
`Index.calibration_frames2` on `EXPTIME` and `CCD-TEMP`. -/
def pdRound (d : ℤ) (q : ℚ) : ℚ :=
  if 0 ≤ d then mkRat (roundHalfEven (scalePow10 d q)) ((10 : ℕ) ^ d.toNat)
  else mkRat (roundHalfEven (scalePow10 d q) * (10 : ℤ) ^ (-d).toNat) 1

/-- One table row as seen by the dark-frame calibration requirement of the
configuration (match attributes `_CCDTEMP` and `_BINNING`, targets
`['light']`): the file key, the derived image type, the raw `CCD-TEMP`
value (`none` = missing) and the derived `_BINNING` string (a join of the
`XBINNING`/`YBINNING` strings, never missing). -/
structure TRow where
  file : String
  imgtyp : String
  ccdtemp : Option ℚ
  binning : String
deriving DecidableEq, Repr

/-- Join key used by `Index.calibration_frames` (exact resolution) for the
dark requirement: the derived `_CCDTEMP` string (always present — a missing
raw temperature renders as `"nanC"`) paired with `_BINNING`. -/
def exactRow (r : TRow) : CalRow (String × String) :=
  ⟨r.file, r.imgtyp, some (ccdtempStr r.ccdtemp, r.binning)⟩

/-- Model of `Index.calibration_frames` for the dark requirement: exact
outer-join classification on the derived `_CCDTEMP` string and `_BINNING`. -/
def calibration_frames (rows : List TRow) (mask : List Bool) :
    List (CalEntry (String × String)) :=
  calibrationJoin (rows.map exactRow) mask "dark" ["light"]

/-- Join key used by `Index.calibration_frames2` (fuzzy resolution) for the
dark requirement: before joining, the function *re-assigns* `_CCDTEMP` to
the raw `CCD-TEMP` cast to float and rounded to `temp_tolerance` digits — a
number, not the normalized string — so the key is the rounded raw
temperature paired with `_BINNING`; a missing raw temperature stays NaN
(`none`), is removed from targets by `dropna` and never matches as a
candidate. -/
def fuzzyRow (temp_tolerance : ℤ) (r : TRow) : CalRow (ℚ × String) :=
  ⟨r.file, r.imgtyp, r.ccdtemp.map (fun t => (pdRound temp_tolerance t, r.binning))⟩

/-- Model of `Index.calibration_frames2` for the dark requirement: fuzzy
outer-join classification on the rounded raw temperature and `_BINNING`
(the `exp_tolerance` rounding of `EXPTIME` does not enter the dark join key
and is omitted from this projection). -/
def calibration_frames2 (rows : List TRow) (mask : List Bool)
    (temp_tolerance : ℤ) : List (CalEntry (ℚ × String)) :=
  calibrationJoin (rows.map (fuzzyRow temp_tolerance)) mask "dark" ["light"]

/-- One table row as seen by `Index.values_for_attr`: the file key (the
unique row index), the row's value for the attribute being drilled into
(`none` = missing / NaN), and the row's values in all remaining columns
(used only for the distinct-combination count). -/
structure VRow where
  file : String
  value : Option String
  rest : List String
deriving DecidableEq, Repr

/-- The `fillna(missing_label)` view of a row's attribute value inside
`Index.values_for_attr`. -/
def fillVal (ml : String) (r : VRow) : String := r.value.getD ml

/-- The per-value row subset chosen inside the loop of
`Index.values_for_attr`: for the missing label the rows whose raw value is
NaN (`selection[selection[attr].isna()]`), otherwise the rows whose raw
value equals the label (`selection[selection[attr] == value]`). -/
def subsetFor (sel : List VRow) (ml v : String) : List VRow :=
  if v = ml then sel.filter (fun r => r.value.isNone)
  else sel.filter (fun r => r.value = some v)

/-- One record yielded by `Index.values_for_attr`: the (filled) value, the
number of distinct files and the number of distinct combinations of the
remaining columns among the rows carrying that value. -/
structure ValueEntry where
  value : String
  nfiles : ℕ
  ncombos : ℕ
deriving DecidableEq, Repr

/-- Model of `Index.values_for_attr`: over the masked rows, one record per
distinct value of the filled attribute column, in order of first
appearance. -/
def values_for_attr (rows : List VRow) (mask : List Bool) (ml : String) :
    List ValueEntry :=
  let sel := maskFilter rows mask
  (dedupF (sel.map (fillVal ml))).map (fun v =>
    let sub := subsetFor sel ml v
    { value := v
      nfiles := (dedupF (sub.map (fun r => r.file))).length
      ncombos := (dedupF (sub.map (fun r => (r.value, r.rest)))).length })

/-- The slice of `Index` state involved in the `rowmask` setter: the row
count of the underlying frame and the current mask. -/
structure MaskState where
  nrows : ℕ
  rowmask : List Bool
deriving DecidableEq, Repr

/-- Result of an attempted `rowmask` assignment: the (possibly unchanged)
state, the validation error if the length assertion failed, and whether the
empty-selection warning was logged. -/
structure SetMaskResult where
  state : MaskState
  error : Option String
  warned : Bool
deriving DecidableEq, Repr

/-- Model of the `Index.rowmask` setter: `assert len(new_mask) ==
len(self._df)` raises on mismatch (leaving the mask untouched); otherwise a
mask selecting no rows logs a warning and the mask is installed either
way. -/
def set_rowmask (st : MaskState) (newMask : List Bool) : SetMaskResult :=
  if newMask.length = st.nrows then
    { state := { st with rowmask := newMask }
      error := none
      warned := !newMask.any id }
  else
    { state := st, error := some "ValidationError: mask length mismatch", warned := false }

/-- Semantics of pandas `rank(method='dense', ascending=True)` for a value
occurring in a column: one plus the number of distinct strictly smaller
values in the column (equal values share a rank, and the next distinct
value's rank increments by exactly one). -/
def denseRank {α : Type} [LinearOrder α] [DecidableEq α] (l : List α) (x : α) : ℕ :=
  (l.toFinset.filter (fun y => y < x)).card + 1

/-- The `_SEQ` column computed by `Index.organize` for one group of rows
(same image type, same non-date name attributes): each row's dense rank of
its `DATE-OBS` value within the group. -/
def seqNumbers {α : Type} [LinearOrder α] [DecidableEq α] (dates : List α) : List ℕ :=
  dates.map (denseRank dates)

/-- Zero-padding `str.zfill(3)` applied to the formatted sequence number. -/
def zfill3 (s : String) : String :=
  String.mk (List.replicate (3 - s.length) '0') ++ s

/-- The per-image-type reorganize template, as assembled by
`Index.organize` into `attr_structure`: the shared `_base_path` /
`_base_name` lists already prepended to the type's own `path` / `name`
attribute lists. -/
structure Template where
  pathAttrs : List String
  nameAttrs : List String

/-- One table row as seen by `Index.organize`: the file key, the derived
image type (`_IMAGETYP`), the raw observation date (`DATE-OBS`), the other
attribute values in their `str()` rendering (missing values render as the
string `"nan"`, exactly the form the planner's `unknown` test checks for),
and the workflow columns staged by planning. -/
structure ORow where
  file : String
  imgtyp : String
  dateObs : String
  attrs : List (String × String)
  newname : Option String
  newpath : Option String
  changed : Bool
deriving DecidableEq, Repr

/-- Attribute lookup `row[attr]` in its string rendering: the date and
image-type columns are routed to their fields; anything absent from the row
renders as `"nan"` (the `str()` image of NaN). -/
def oval (r : ORow) (a : String) : String :=
  if a = "DATE-OBS" then r.dateObs
  else if a = "_IMAGETYP" then r.imgtyp
  else (((r.attrs.find? (fun p => p.1 = a)).map (fun p => p.2)).getD "nan")

/-- Attribute value as rendered for path/name building: `Index.organize`
re-formats the `EXPTIME` column with `'{:g}s'.format` before rendering; the
numeral normalization of `{:g}` on an already-canonical numeral string is
the identity, so this is modelled as appending the unit suffix. -/
def ovalFmt (r : ORow) (a : String) : String :=
  if a = "EXPTIME" then oval r a ++ "s" else oval r a

/-- Python `str.replace` with a single-character pattern (the only shape the
planner uses): every occurrence of the character is replaced by the given
replacement characters. -/
def pyReplaceChar (c : Char) (repl : List Char) (s : String) : String :=
  String.mk (s.data.flatMap (fun d => if d = c then repl else [d]))

/-- Model of `namepart` inside `Index.organize._get_new_name`: strip spaces,
turn colons and underscores into hyphens, and prefix gain/offset values with
their lower-cased key. -/
def namepart (r : ORow) (seq : String) (a : String) : String :=
  let part :=
    pyReplaceChar '_' ['-']
      (pyReplaceChar ':' ['-']
        (pyReplaceChar ' ' [] (if a = "_SEQNO" then seq else ovalFmt r a)))
  if a = "_GAIN" ∨ a = "_OFFSET" then (a.dropWhile (fun c => c = '_')).toLower ++ part
  else part

/-- Model of `Index.organize._get_new_name` for a non-empty name-attribute
list: the name attributes plus the sequence number, joined with
underscores, with the fixed extension. -/
def renderName (r : ORow) (nameAttrs : List String) (seq : String) : String :=
  String.intercalate "_" ((nameAttrs ++ ["_SEQNO"]).map (namepart r seq)) ++ ".fits"

/-- Model of `subdir` inside `Index.organize._get_new_path`: missing-valued
attributes render as an explicit `unknown <key>` placeholder, and
binning/gain/offset values get a key-prefixed rendering. -/
def subdir (r : ORow) (a : String) : String :=
  let value := ovalFmt r a
  let key := (a.toLower).dropWhile (fun c => c = '_')
  let value2 :=
    if value = "nan" ∨ value = "(Unknown)" then "unknown " ++ key else value
  if key = "binning" ∨ key = "gain" ∨ key = "offset" then
    key ++ "-" ++ pyReplaceChar ' ' [] value2
  else value2

/-- Model of `Index.organize._get_new_path`: the rendered path attributes
joined under the new root directory. -/
def renderPath (rootDir : String) (pathAttrs : List String) (r : ORow) : String :=
  String.intercalate "/" (rootDir :: pathAttrs.map (subdir r))

/-- Model of `Index.organize`: for every masked row (grouped by image type,
then by the name attributes other than the date for sequence numbering),
stage `_newname` (or leave it NaN when the type's name-attribute list is
empty), stage `_newpath`, and mark the row changed.  Unmasked rows are
untouched.  The `groupby` iteration order does not affect any single row's
staged values, so the plan is computed row-wise here. -/
def organize (tmpl : String → Template) (rootDir : String) (rows : List ORow)
    (mask : List Bool) : List ORow :=
  let masked := maskFilter rows mask
  (rows.zip mask).map (fun p =>
    let r := p.1
    if p.2 = false then r else
    let t := tmpl r.imgtyp
    let groupAttrs := t.nameAttrs.filter (fun a => a ≠ "DATE-OBS" ∧ a ≠ "_SEQNO")
    let group := masked.filter
      (fun q => q.imgtyp = r.imgtyp ∧ groupAttrs.map (oval q) = groupAttrs.map (oval r))
    let seq :=
      if 0 < groupAttrs.length then
        zfill3 (toString (denseRank (group.map (fun q => q.dateObs)) r.dateObs))
      else ""
    { r with
      newname := if t.nameAttrs.isEmpty then none else some (renderName r t.nameAttrs seq)
      newpath := some (renderPath rootDir t.pathAttrs r)
      changed := true })

/-- The three file operations `Index.sync` can be asked to perform. -/
inductive Op where
  | copy
  | move
  | symlink
deriving DecidableEq, Repr

/-- One table row as seen by `Index.sync`: the file key (full path), the
derived `_PATH` (parent directory) and `_NAME` (base name) columns, the
staged rename columns, the dirty flag, and the lowercase `_path` column
that `sync` itself creates on a move (absent until then). -/
structure FRow where
  file : String
  path : String
  name : String
  newpath : Option String
  newname : Option String
  changed : Bool
  pathLower : Option String
deriving DecidableEq, Repr

/-- The state `Index.sync` acts on: the table rows, the set of file paths
that exist on disk, the header-cache validity flag and the per-row error
reports accumulated so far (the destination path of each row that failed
with an existing destination). -/
structure SyncState where
  rows : List FRow
  fs : List String
  cacheValid : Bool
  errors : List String
deriving DecidableEq, Repr

/-- Full path of a directory/name pair, as built by `Path(newpath, newname)`. -/
def joinFile (p n : String) : String := p ++ "/" ++ n

/-- Model of `self.df.loc[self.df.index == key, ...] = ...`: rewrite the
rows whose key matches. -/
def updateRow (rows : List FRow) (key : String) (f : FRow → FRow) : List FRow :=
  rows.map (fun q => if q.file = key then f q else q)

/-- Model of `Index.sync._sync_row` acting on one snapshot row `r`.  If a
rename is staged and the destination exists without overwrite authority,
the row is reported and *nothing else happens* (the Python `return` fires
before any filesystem, staged-field, header or dirty-flag mutation).
Otherwise the file operation runs, staged fields are cleared, and — except
for `symlink`, which never touches headers — the audit-history/header write
happens at the destination, the dirty flag is cleared, a `move`
additionally writes the new directory into the (newly created, lowercase)
`_path` column and renames the row key to the destination path, and a
header-only change invalidates the cache. -/
def syncRow (op : Op) (overwrite saveOldname : Bool) (st : SyncState) (r : FRow) :
    SyncState :=
  let oldpath := r.path
  let oldname := r.name
  let newpath := r.newpath.getD oldpath
  let newname := r.newname.getD oldname
  let newfile := joinFile newpath newname
  let doRename := newpath ≠ oldpath ∨ newname ≠ oldname
  if doRename ∧ newfile ∈ st.fs ∧ overwrite = false then
    { st with errors := st.errors ++ [newfile] }
  else
    let st1 :=
      if doRename then
        { st with
          fs := match op with
            | Op.copy => st.fs ++ [newfile]
            | Op.move => st.fs.erase r.file ++ [newfile]
            | Op.symlink => st.fs ++ [newfile]
          rows := updateRow st.rows r.file
            (fun q => { q with newpath := none, newname := none }) }
      else st
    if op = Op.symlink then st1
    else
      let st2 := { st1 with
        rows := updateRow st1.rows r.file (fun q => { q with changed := false }) }
      let st3 :=
        if op = Op.move then
          { st2 with
            rows := updateRow st2.rows r.file
              (fun q => { q with pathLower := some newpath, file := newfile }) }
        else st2
      if r.changed = true ∧ ¬doRename then { st3 with cacheValid := false } else st3

/-- Model of `Index.sync`: iterate `_sync_row` over the snapshot of rows
whose dirty flag is set (`self.changed()`), in table order. -/
def sync (op : Op) (overwrite saveOldname : Bool) (st : SyncState) : SyncState :=
  (st.rows.filter (fun r => r.changed)).foldl (syncRow op overwrite saveOldname) st

/-- One table row as seen by the session-fill step at the end of
`Index.__init__`: the file key, the raw `SESSION` value, the derived
`_NIGHT` bucket, and the dirty flag. -/
structure SRow where
  file : String
  session : Option String
  night : String
  changed : Bool
deriving DecidableEq, Repr

/-- Model of the construction-time session fill in `Index.__init__`.  The
source executes `df.loc[isna, ['SESSION']] = df.loc[isna, ['_NIGHT']]`: a
DataFrame-to-DataFrame `.loc` assignment, which pandas aligns on *column
labels*; the right-hand frame has no `SESSION` column, so the aligned value
is NaN and the `SESSION` cells stay missing.  The `_CHANGED` column is then
set to the missing-session indicator, so exactly those rows are flagged
dirty. -/
def initSessionFill (rows : List SRow) : List SRow :=
  if rows.any (fun r => r.session.isNone) then
    rows.map (fun r =>
      { r with
        session := if r.session.isNone then none else r.session
        changed := r.session.isNone })
  else rows

/-- Concrete table of the calibration scenario in the spec: one light frame
and one dark frame at raw CCD temperature 0 and binning 1x1, and one dark
frame at raw temperature −10 and binning 2x2. -/
def c1trows : List TRow :=
  [⟨"light1.fits", "light", some 0, "1x1"⟩,
   ⟨"dark1.fits", "dark", some 0, "1x1"⟩,
   ⟨"dark2.fits", "dark", some ((-10 : ℤ) : ℚ), "2x2"⟩]

/-- Concrete two-row table for the drill-down partition property: one
genuine value and one missing value. -/
def c2rows : List VRow := [⟨"f1", some "a", []⟩, ⟨"f2", none, []⟩]

/-- Concrete one-row table whose genuine attribute value collides with the
missing sentinel. -/
def c2badrows : List VRow := [⟨"f1", some "(Unknown)", []⟩]

/-- Concrete dirty row with a staged destination directory that collides
with an existing file. -/
def c6row : FRow := ⟨"old/b.fits", "old", "b.fits", some "dst", none, true, none⟩

/-- Concrete sync state for the destination-exists scenario: the staged
destination `dst/b.fits` already exists on disk. -/
def c6state : SyncState := ⟨[c6row], ["dst/b.fits", "old/b.fits"], true, []⟩

/-- Concrete dirty row with a staged move to a fresh directory. -/
def c10row : FRow := ⟨"old/a.fits", "old", "a.fits", some "new", none, true, none⟩

/-- The in-memory row resulting from a committed `move` in
`Index.sync._sync_row`: staged fields cleared, dirty flag cleared, the new
directory written to the lowercase `_path` column, the key renamed to the
destination path — and `_PATH` untouched. -/
def moveResult (r : FRow) : FRow :=
  { r with
    newpath := none
    newname := none
    changed := false
    pathLower := some (r.newpath.getD r.path)
    file := joinFile (r.newpath.getD r.path) (r.newname.getD r.name) }

/-- Concrete sync state for the move scenario: only the source file exists
on disk. -/
def c10state : SyncState := ⟨[c10row], ["old/a.fits"], true, []⟩

/-- Relabelling of a calibration row's match-key (used to compare the two
resolvers, whose join keys live in different types). -/
def calRowMapKey {κ κ' : Type} (G : κ → κ') (r : CalRow κ) : CalRow κ' :=
  ⟨r.file, r.imgtyp, r.key.map G⟩

/-- Relabelling of a classified result entry's match-key. -/
def calEntryMapKey {κ κ' : Type} (G : κ → κ') (e : CalEntry κ) : CalEntry κ' :=
  ⟨G e.key, e.status, e.file⟩

/-- The correspondence between the fuzzy join key (rounded raw temperature,
binning) and the exact join key (derived temperature string, binning): the
temperature component is normalized and formatted. -/
def fuzzyToExactKey (p : ℚ × String) : String × String :=
  (ccdtemp_format (normalize_temps p.1), p.2)

/-- Concrete table refuting the tolerance-0 agreement: a light frame at raw
CCD temperature 1 and a dark frame at raw temperature 0, both integers and
both at binning 1x1.  Normalization snaps 1 to the setpoint 0, so both
derive the string `0C`, while the raw temperatures rounded to 0 digits stay
distinct. -/
def c3rows : List TRow :=
  [⟨"light1.fits", "light", some 1, "1x1"⟩,
   ⟨"dark1.fits", "dark", some 0, "1x1"⟩]

/-- Concrete table on which exact and tolerance-0 fuzzy resolution agree:
integer temperatures that collide nowhere under normalization. -/
def c3okrows : List TRow :=
  [⟨"light1.fits", "light", some ((0 : ℤ) : ℚ), "1x1"⟩,
   ⟨"dark1.fits", "dark", some ((0 : ℤ) : ℚ), "1x1"⟩]

/-- Concrete reorganize template whose name-attribute list is empty for
every image type (shared base name list empty and no per-type name
attributes). -/
def c8tmpl : String → Template := fun _ => ⟨["_IMAGETYP"], []⟩

/-- Concrete flat-frame row for the reorganize planning scenario. -/
def c8row : ORow := ⟨"f.fits", "flat", "2024-01-01", [], none, none, false⟩

theorem mem_dedupF {α : Type} [DecidableEq α] (l : List α) (x : α) :
    x ∈ dedupF l ↔ x ∈ l := by
  induction l with
  | nil => simp [dedupF]
  | cons a as ih =>
    simp only [dedupF, List.mem_cons, List.mem_filter, ih]
    constructor
    · rintro (rfl | ⟨h, _⟩)
      · exact Or.inl rfl
      · exact Or.inr h
    · rintro (rfl | h)
      · exact Or.inl rfl
      · by_cases hx : x = a
        · exact Or.inl hx
        · exact Or.inr ⟨h, by simpa using hx⟩

theorem nodup_dedupF {α : Type} [DecidableEq α] (l : List α) :
    (dedupF l).Nodup := by
  induction l with
  | nil => simp [dedupF]
  | cons a as ih =>
    simp only [dedupF, List.nodup_cons]
    refine ⟨fun hmem => ?_, ih.filter _⟩
    have := (List.mem_filter.1 hmem).2
    simp at this

theorem dedupF_eq_self {α : Type} [DecidableEq α] (l : List α) (h : l.Nodup) :
    dedupF l = l := by
  induction l with
  | nil => simp [dedupF]
  | cons a as ih =>
    simp only [List.nodup_cons] at h
    rw [dedupF, ih h.2]
    congr 1
    apply List.filter_eq_self.2
    intro b hb
    simp only [ne_eq, decide_eq_true_eq]
    intro hba
    exact h.1 (hba ▸ hb)

theorem maskFilter_subset {α : Type} (rows : List α) (mask : List Bool) :
    ∀ x ∈ maskFilter rows mask, x ∈ rows := by
  intro x hx
  simp only [maskFilter, List.mem_filterMap] at hx
  obtain ⟨⟨a, b⟩, hmem, hab⟩ := hx
  have := List.of_mem_zip hmem
  by_cases hb : b
  · simp [hb] at hab
    exact hab ▸ this.1
  · simp [hb] at hab

theorem maskFilter_sublist {α : Type} (rows : List α) (mask : List Bool) :
    (maskFilter rows mask).Sublist rows := by
  induction rows generalizing mask with
  | nil => simp [maskFilter]
  | cons a as ih =>
    cases mask with
    | nil => simp [maskFilter]
    | cons b bs =>
      by_cases hb : b
      · simpa [maskFilter, hb] using List.Sublist.cons₂ a (ih bs)
      · simpa [maskFilter, hb] using List.Sublist.cons a (ih bs)

theorem key_of_mem_joinPiece {κ : Type} [DecidableEq κ] (rows : List (CalRow κ))
    (ct : String) (k : κ) (e : CalEntry κ) (he : e ∈ joinPiece rows ct k) :
    e.key = k := by
  unfold joinPiece at he
  by_cases h : ((cand_rows rows ct).filter (fun c => c.key = some k)).isEmpty
  · simp only [h, if_true, List.mem_singleton] at he
    simp [he]
  · simp [h] at he
    obtain ⟨c, _, heq⟩ := he
    rw [← heq]

theorem flatMap_filter_keyed {κ : Type} [DecidableEq κ]
    (g : κ → List (CalEntry κ)) (hkey : ∀ k' e, e ∈ g k' → e.key = k')
    (L : List κ) (hN : L.Nodup) (k : κ) :
    (L.flatMap g).filter (fun e => e.key = k) =
      if k ∈ L then (g k).filter (fun e => e.key = k) else [] := by
  induction L with
  | nil => simp
  | cons a L ih =>
    simp only [List.nodup_cons] at hN
    rw [List.flatMap_cons, List.filter_append, ih hN.2]
    by_cases hak : a = k
    · rw [if_neg (hak ▸ hN.1), List.append_nil,
        if_pos (List.mem_cons.2 (Or.inl hak.symm)), hak]
    · have hga : (g a).filter (fun e => e.key = k) = [] := by
        apply List.filter_eq_nil_iff.2
        intro e he
        have hek := hkey a e he
        simp [hek, hak]
      rw [hga, List.nil_append]
      by_cases hkL : k ∈ L
      · rw [if_pos hkL, if_pos (List.mem_cons_of_mem a hkL)]
      · have hka : k ∉ a :: L := by
          intro hmem
          rcases List.mem_cons.1 hmem with h | h
          · exact hak h.symm
          · exact hkL h
        rw [if_neg hkL, if_neg hka]

theorem nodup_target_keys {κ : Type} [DecidableEq κ] (rows : List (CalRow κ))
    (mask : List Bool) (tgs : List String) :
    (target_keys rows mask tgs).Nodup := by
  unfold target_keys
  apply List.Nodup.filterMap _ (nodup_dedupF _)
  intro a a' b hb hb'
  simp only [id, Option.mem_def] at hb hb'
  rw [hb, hb']

/-- C1.  Exact calibration resolution classifies every distinct
match-attribute combination as the spec states: a combination occurring
both among the masked target rows and among the (unmasked) candidate rows
of the calibration type yields only `Available` entries (at least one); a
combination occurring only among the targets yields exactly one `Missing`
entry; a combination that is not a target combination never appears.  In
particular, on the concrete table with one light and one dark frame at
(0 °C, 1x1) and one dark frame at (−10 °C, 2x2), resolving darks for target
label "light" over match attributes `_CCDTEMP`/`_BINNING` yields exactly
one `Available` row for ("0C","1x1"), no `Missing` row, and no row at all
for ("-10C","2x2"). -/
theorem c1_exact_resolution :
    (∀ (κ : Type) [DecidableEq κ] (rows : List (CalRow κ)) (mask : List Bool)
      (ct : String) (tgs : List String) (k : κ),
      (k ∈ target_keys rows mask tgs → (∃ c ∈ cand_rows rows ct, c.key = some k) →
        (∃ e ∈ calibrationJoin rows mask ct tgs,
            e.key = k ∧ e.status = Status.available) ∧
        (∀ e ∈ calibrationJoin rows mask ct tgs, e.key = k →
            e.status = Status.available)) ∧
      (k ∈ target_keys rows mask tgs → (∀ c ∈ cand_rows rows ct, c.key ≠ some k) →
        (calibrationJoin rows mask ct tgs).filter (fun e => e.key = k) =
          [⟨k, Status.missing, none⟩]) ∧
      (k ∉ target_keys rows mask tgs →
        ∀ e ∈ calibrationJoin rows mask ct tgs, e.key ≠ k)) ∧
    calibration_frames c1trows [true, true, true] =
      [⟨("0C", "1x1"), Status.available, some "dark1.fits"⟩] := by
  constructor
  · intro κ _ rows mask ct tgs k
    refine ⟨fun hk hc => ?_, fun hk hc => ?_, fun hk e he => ?_⟩
    · obtain ⟨c, hcm, hck⟩ := hc
      have hcf : c ∈ (cand_rows rows ct).filter (fun c => c.key = some k) := by
        rw [List.mem_filter]
        exact ⟨hcm, by simp [hck]⟩
      have hne : ¬((cand_rows rows ct).filter (fun c => c.key = some k)).isEmpty := by
        rw [List.isEmpty_iff]
        intro h
        rw [h] at hcf
        exact List.not_mem_nil c hcf
      constructor
      · refine ⟨⟨k, Status.available, some c.file⟩, ?_, rfl, rfl⟩
        rw [calibrationJoin, List.mem_flatMap]
        refine ⟨k, hk, ?_⟩
        unfold joinPiece
        rw [if_neg hne, List.mem_map]
        exact ⟨c, hcf, rfl⟩
      · intro e hee hek
        rw [calibrationJoin, List.mem_flatMap] at hee
        obtain ⟨k', hk', he'⟩ := hee
        have hkk : k' = k := by
          rw [← key_of_mem_joinPiece rows ct k' e he', hek]
        rw [hkk] at he'
        unfold joinPiece at he'
        rw [if_neg hne] at he'
        obtain ⟨c', hc', heq⟩ := List.mem_map.1 he'
        rw [← heq]
    · rw [calibrationJoin,
        flatMap_filter_keyed (joinPiece rows ct) (key_of_mem_joinPiece rows ct) _
          (nodup_target_keys rows mask tgs) k, if_pos hk]
      have hem : ((cand_rows rows ct).filter (fun c => c.key = some k)).isEmpty := by
        rw [List.isEmpty_iff, List.filter_eq_nil_iff]
        intro c hcm
        simpa using hc c hcm
      unfold joinPiece
      rw [if_pos hem]
      simp
    · intro hek
      rw [calibrationJoin, List.mem_flatMap] at he
      obtain ⟨k', hk', he'⟩ := he
      have := key_of_mem_joinPiece rows ct k' e he'
      rw [hek] at this
      exact hk (this ▸ hk')
  · decide

/-- Witness for C1: the general classification instantiated on the concrete
scenario table, at the combination ("0C","1x1"), which occurs on both sides
of the join. -/
theorem c1_exact_resolution_witness :
    (("0C", "1x1") ∈
        target_keys (c1trows.map exactRow) [true, true, true] ["light"] ∧
      (∃ c ∈ cand_rows (c1trows.map exactRow) "dark",
          c.key = some ("0C", "1x1"))) ∧
    ((∃ e ∈ calibrationJoin (c1trows.map exactRow) [true, true, true] "dark"
          ["light"], e.key = ("0C", "1x1") ∧ e.status = Status.available) ∧
      ∀ e ∈ calibrationJoin (c1trows.map exactRow) [true, true, true] "dark"
          ["light"], e.key = ("0C", "1x1") → e.status = Status.available) :=
  ⟨⟨by decide, by decide⟩,
    (c1_exact_resolution.1 (String × String) (c1trows.map exactRow)
      [true, true, true] "dark" ["light"] ("0C", "1x1")).1 (by decide) (by decide)⟩

/-- C5.  The `rowmask` setter rejects a mask whose length differs from the
row count (surfacing a validation error and leaving the prior mask
unchanged), while a correct-length mask selecting zero rows is installed
with only a warning. -/
theorem c5_set_rowmask (st : MaskState) (m1 m2 : List Bool)
    (hbad : m1.length ≠ st.nrows) (hlen : m2.length = st.nrows)
    (hzero : ∀ b ∈ m2, b = false) :
    ((set_rowmask st m1).error.isSome ∧ (set_rowmask st m1).state = st) ∧
    ((set_rowmask st m2).error = none ∧
      (set_rowmask st m2).state.rowmask = m2 ∧ (set_rowmask st m2).warned = true) := by
  constructor
  · rw [set_rowmask, if_neg hbad]
    exact ⟨rfl, rfl⟩
  · rw [set_rowmask, if_pos hlen]
    refine ⟨rfl, rfl, ?_⟩
    simp only [Bool.not_eq_true']
    rw [List.any_eq_false]
    intro b hb
    simpa using hzero b hb

/-- Witness for C5: a two-row table, a one-entry mask (rejected) and an
all-false two-entry mask (installed with a warning). -/
theorem c5_set_rowmask_witness :
    ((set_rowmask ⟨2, [true, true]⟩ [true]).error.isSome ∧
      (set_rowmask ⟨2, [true, true]⟩ [true]).state = ⟨2, [true, true]⟩) ∧
    ((set_rowmask ⟨2, [true, true]⟩ [false, false]).error = none ∧
      (set_rowmask ⟨2, [true, true]⟩ [false, false]).state.rowmask = [false, false] ∧
      (set_rowmask ⟨2, [true, true]⟩ [false, false]).warned = true) :=
  c5_set_rowmask ⟨2, [true, true]⟩ [true] [false, false] (by decide) (by decide)
    (by decide)

/-- C7.  The derived CCD-temperature string: the raw value is rounded, the
rounded value is snapped to a fixed normal setpoint at distance at most one
when such a setpoint exists (otherwise it is kept as the plain rounded
integer), and the result is rendered with the trailing unit marker; on the
raw values 0.4 and −0.6 the derived string is exactly "0C" in both
cases. -/
theorem c7_normalize_temps :
    ccdtempStr (some (mkRat 2 5)) = "0C" ∧ ccdtempStr (some (mkRat (-3) 5)) = "0C" ∧
    ∀ t : ℚ, ∃ z : ℤ, ccdtempStr (some t) = ccdtemp_format z ∧
      ((z ∈ normal_temps ∧ (z - roundHalfEven t).natAbs ≤ 1) ∨
        (z = roundHalfEven t ∧ roundHalfEven t + 1 ∉ normal_temps ∧
          roundHalfEven t - 1 ∉ normal_temps)) := by
  refine ⟨by decide, by decide, fun t => ?_⟩
  refine ⟨normalize_temps t, rfl, ?_⟩
  unfold normalize_temps
  by_cases h1 : roundHalfEven t + 1 ∈ normal_temps
  · rw [if_pos h1]
    refine Or.inl ⟨h1, ?_⟩
    omega
  · rw [if_neg h1]
    by_cases h2 : roundHalfEven t - 1 ∈ normal_temps
    · rw [if_pos h2]
      refine Or.inl ⟨h2, ?_⟩
      omega
    · rw [if_neg h2]
      exact Or.inr ⟨rfl, h1, h2⟩

/-- C9 (code bug).  The construction-time session fill: on a row whose
`SESSION` is missing, the `.loc` DataFrame-to-DataFrame assignment aligns
on column labels and therefore leaves `SESSION` missing (the right-hand
frame has no `SESSION` column), yet the row is still flagged dirty — the
code marks the row changed without actually filling the session with the
night bucket. -/
theorem c9_session_fill_bug :
    initSessionFill [⟨"f.fits", none, "2024-01-01", false⟩] =
      [⟨"f.fits", none, "2024-01-01", true⟩] := by decide

theorem denseRank_cons_head {α : Type} [LinearOrder α] [DecidableEq α] (a : α)
    (t : List α) (h : ∀ b ∈ t, a < b) : denseRank (a :: t) a = 1 := by
  unfold denseRank
  have : (a :: t).toFinset.filter (fun y => y < a) = ∅ := by
    apply Finset.filter_eq_empty_iff.2
    intro y hy
    rw [List.mem_toFinset, List.mem_cons] at hy
    rcases hy with rfl | hy
    · exact lt_irrefl y
    · exact not_lt_of_gt (h y hy)
  rw [this, Finset.card_empty]

theorem denseRank_cons_of_lt {α : Type} [LinearOrder α] [DecidableEq α] (a x : α)
    (t : List α) (hax : a < x) (hat : a ∉ t) :
    denseRank (a :: t) x = denseRank t x + 1 := by
  unfold denseRank
  have h1 : (a :: t).toFinset.filter (fun y => y < x) =
      insert a (t.toFinset.filter (fun y => y < x)) := by
    rw [List.toFinset_cons, Finset.filter_insert, if_pos hax]
  have h2 : a ∉ t.toFinset.filter (fun y => y < x) := by
    intro hmem
    exact hat (List.mem_toFinset.1 (Finset.mem_filter.1 hmem).1)
  rw [h1, Finset.card_insert_of_not_mem h2]

theorem seqNumbers_strict_sorted {α : Type} [LinearOrder α] [DecidableEq α]
    (l : List α) (h : l.Pairwise (· < ·)) :
    seqNumbers l = List.range' 1 l.length := by
  induction l with
  | nil => simp [seqNumbers]
  | cons a t ih =>
    rw [List.pairwise_cons] at h
    have hat : a ∉ t := fun hmem => lt_irrefl a (h.1 a hmem)
    rw [seqNumbers, List.map_cons, List.length_cons, List.range'_succ,
      denseRank_cons_head a t h.1]
    congr 1
    have hmapeq : t.map (denseRank (a :: t)) = t.map (fun x => denseRank t x + 1) := by
      apply List.map_congr_left
      intro x hx
      exact denseRank_cons_of_lt a x t (h.1 x hx) hat
    rw [hmapeq]
    have : t.map (fun x => denseRank t x + 1) =
        (t.map (denseRank t)).map (fun n => 1 + n) := by
      rw [List.map_map]
      apply List.map_congr_left
      intro x _
      simp [Function.comp, Nat.add_comm]
    rw [this, ← seqNumbers, ih h.2, List.map_add_range']

/-- C4.  Sequence numbers in `Index.organize` follow pandas dense ranking of
the observation dates within a name-attribute group: for strictly
increasing dates the sequence numbers are exactly 1..N; rows with an
identical date receive the identical sequence number; and in date order the
next distinct date receives the previous rank plus one (not plus the number
of ties). -/
theorem c4_dense_rank_sequencing :
    (∀ (α : Type) [LinearOrder α] [DecidableEq α] (l : List α),
      l.Pairwise (· < ·) → seqNumbers l = List.range' 1 l.length) ∧
    (∀ (α : Type) [LinearOrder α] [DecidableEq α] (l : List α) (i j : ℕ)
      (hi : i < l.length) (hj : j < l.length)
      (hi2 : i < (seqNumbers l).length) (hj2 : j < (seqNumbers l).length),
      l.get ⟨i, hi⟩ = l.get ⟨j, hj⟩ →
      (seqNumbers l).get ⟨i, hi2⟩ = (seqNumbers l).get ⟨j, hj2⟩) ∧
    (∀ (α : Type) [LinearOrder α] [DecidableEq α] (l : List α),
      l.Pairwise (· ≤ ·) → ∀ (i : ℕ) (hi1 : i + 1 < l.length),
      l.get ⟨i, Nat.lt_of_succ_lt hi1⟩ < l.get ⟨i + 1, hi1⟩ →
      denseRank l (l.get ⟨i + 1, hi1⟩) =
        denseRank l (l.get ⟨i, Nat.lt_of_succ_lt hi1⟩) + 1) := by
  refine ⟨fun α _ _ l h => seqNumbers_strict_sorted l h, ?_, ?_⟩
  · intro α _ _ l i j hi hj hi2 hj2 heq
    have hsi : (seqNumbers l).get ⟨i, hi2⟩ = denseRank l (l.get ⟨i, hi⟩) := by
      simp [seqNumbers, List.get_eq_getElem]
    have hsj : (seqNumbers l).get ⟨j, hj2⟩ = denseRank l (l.get ⟨j, hj⟩) := by
      simp [seqNumbers, List.get_eq_getElem]
    rw [hsi, hsj, heq]
  · intro α _ _ l hsort i hi1 hlt
    have hpg := List.pairwise_iff_getElem.1 hsort
    have hi0 : i < l.length := Nat.lt_of_succ_lt hi1
    simp only [List.get_eq_getElem] at hlt ⊢
    unfold denseRank
    have hset : l.toFinset.filter (fun y => y < l[i + 1]) =
        insert l[i] (l.toFinset.filter (fun y => y < l[i])) := by
      apply Finset.ext
      intro y
      simp only [Finset.mem_filter, Finset.mem_insert, List.mem_toFinset]
      constructor
      · rintro ⟨hyl, hylt⟩
        obtain ⟨j, hj, hyj⟩ := List.mem_iff_getElem.1 hyl
        by_cases hji : j ≤ i
        · have hyle : y ≤ l[i] := by
            rcases Nat.lt_or_ge j i with hlt2 | hge
            · exact hyj ▸ hpg j i hj hi0 hlt2
            · have hje : j = i := Nat.le_antisymm hji hge
              subst hje
              exact le_of_eq hyj.symm
          rcases lt_or_eq_of_le hyle with hcase | hcase
          · exact Or.inr ⟨hyl, hcase⟩
          · exact Or.inl hcase
        · exfalso
          have hij : i + 1 ≤ j := Nat.lt_of_not_le hji
          have hge : l[i + 1] ≤ y := by
            rcases Nat.lt_or_ge (i + 1) j with hlt2 | hge2
            · exact hyj ▸ hpg (i + 1) j hi1 hj hlt2
            · have hje : i + 1 = j := Nat.le_antisymm hij hge2
              subst hje
              exact le_of_eq hyj
          exact absurd hylt (not_lt_of_ge hge)
      · rintro (rfl | ⟨hyl, hylt⟩)
        · exact ⟨List.getElem_mem hi0, hlt⟩
        · exact ⟨hyl, lt_trans hylt hlt⟩
    have hnotmem : l[i] ∉ l.toFinset.filter (fun y => y < l[i]) := by
      intro hmem
      exact lt_irrefl _ (Finset.mem_filter.1 hmem).2
    rw [hset, Finset.card_insert_of_not_mem hnotmem]

/-- Witness for C4: a strictly increasing three-date group (dates as
`yyyymmdd` numerals) is numbered 1, 2, 3, and with dates a < b = b < c
sorted ascending, the rank after the tied pair is the tied rank plus
one. -/
theorem c4_dense_rank_sequencing_witness :
    (([20240101, 20240102, 20240103] : List ℕ).Pairwise (· < ·) ∧
      seqNumbers ([20240101, 20240102, 20240103] : List ℕ) =
        List.range' 1 ([20240101, 20240102, 20240103] : List ℕ).length) ∧
    (([1, 2, 2, 3] : List ℕ).Pairwise (· ≤ ·) ∧
      denseRank ([1, 2, 2, 3] : List ℕ) (([1, 2, 2, 3] : List ℕ).get ⟨3, by decide⟩) =
        denseRank ([1, 2, 2, 3] : List ℕ) (([1, 2, 2, 3] : List ℕ).get ⟨2, by decide⟩) +
          1) := by
  constructor
  · exact ⟨by decide, c4_dense_rank_sequencing.1 ℕ
      [20240101, 20240102, 20240103] (by decide)⟩
  · exact ⟨by decide, c4_dense_rank_sequencing.2.2 ℕ [1, 2, 2, 3]
      (by decide) 2 (by decide) (by decide)⟩

theorem length_filter_eq_count {α β : Type} [DecidableEq β] (f : α → β)
    (l : List α) (v : β) :
    (l.filter (fun r => f r = v)).length = (l.map f).count v := by
  induction l with
  | nil => rfl
  | cons a t ih =>
    by_cases h : f a = v
    · simp [List.count_cons, h, ih]
    · simp [List.count_cons, h, ih]

theorem sum_count_dedupF {β : Type} [DecidableEq β] (vals : List β) :
    ((dedupF vals).map (fun v => vals.count v)).sum = vals.length := by
  have hn := nodup_dedupF vals
  have h1 := List.sum_toFinset (fun v => vals.count v) hn
  have h2 : (dedupF vals).toFinset = vals.toFinset := by
    ext v
    simp [List.mem_toFinset, mem_dedupF]
  rw [← h1, h2, List.sum_toFinset_count_eq_length]

theorem subsetFor_eq_filter_fill (sel : List VRow) (ml : String)
    (hml : ∀ r ∈ sel, r.value ≠ some ml) (v : String) :
    subsetFor sel ml v = sel.filter (fun r => fillVal ml r = v) := by
  unfold subsetFor
  by_cases hv : v = ml
  · rw [if_pos hv]
    apply List.filter_congr
    intro r hr
    cases hrv : r.value with
    | none => simp [fillVal, hrv, hv]
    | some x =>
      have hx : x ≠ ml := by
        intro hxe
        exact hml r hr (by rw [hrv, hxe])
      simp [fillVal, hrv, hv, hx]
  · rw [if_neg hv]
    apply List.filter_congr
    intro r hr
    cases hrv : r.value with
    | none =>
      have : ml ≠ v := fun h => hv h.symm
      simp [fillVal, hrv, this]
    | some x => simp [fillVal, hrv]

/-- Counterexample to C2 as stated: a single masked row whose genuine value
for the attribute equals the missing sentinel `"(Unknown)"` is reported
under that label, but the per-label subset is computed as the rows whose
raw value is NaN — which excludes the row — so the file counts sum to 0
while one row is masked, and the partition is not exhaustive. -/
theorem c2_values_partition_counterexample :
    ¬ (((values_for_attr c2badrows [true] "(Unknown)").map
        (fun e => e.nfiles)).sum =
      (maskFilter c2badrows [true]).length) := by decide

/-- C2 (amended).  Provided no masked row's genuine attribute value equals
the missing sentinel (and masked file keys are distinct, as the pivot
guarantees), `values_for_attr` partitions the masked rows exhaustively and
disjointly: the per-value distinct-file counts sum to the number of masked
rows, and the per-value row subsets for two distinct reported labels are
disjoint. -/
theorem c2_values_partition (rows : List VRow) (mask : List Bool) (ml : String)
    (hne : rows ≠ [])
    (hnodup : ((maskFilter rows mask).map (fun r => r.file)).Nodup)
    (hml : ∀ r ∈ maskFilter rows mask, r.value ≠ some ml) :
    ((values_for_attr rows mask ml).map (fun e => e.nfiles)).sum =
      (maskFilter rows mask).length ∧
    ∀ v1 v2 : String, v1 ≠ v2 → ∀ r, r ∈ subsetFor (maskFilter rows mask) ml v1 →
      r ∉ subsetFor (maskFilter rows mask) ml v2 := by
  constructor
  · have hstep1 : (values_for_attr rows mask ml).map (fun e => e.nfiles) =
        (dedupF ((maskFilter rows mask).map (fillVal ml))).map
          (fun v => (dedupF ((subsetFor (maskFilter rows mask) ml v).map
            (fun r => r.file))).length) := by
      rw [values_for_attr, List.map_map]
      rfl
    have hstep2 : ∀ v, (dedupF ((subsetFor (maskFilter rows mask) ml v).map
        (fun r => r.file))).length =
        ((maskFilter rows mask).map (fillVal ml)).count v := by
      intro v
      have hsub : subsetFor (maskFilter rows mask) ml v =
          (maskFilter rows mask).filter (fun r => fillVal ml r = v) :=
        subsetFor_eq_filter_fill (maskFilter rows mask) ml hml v
      have hsubl : (subsetFor (maskFilter rows mask) ml v).Sublist
          (maskFilter rows mask) := by
        rw [hsub]
        exact List.filter_sublist _
      have hnd : ((subsetFor (maskFilter rows mask) ml v).map
          (fun r => r.file)).Nodup :=
        List.Nodup.sublist (List.Sublist.map _ hsubl) hnodup
      rw [dedupF_eq_self _ hnd, List.length_map, hsub,
        length_filter_eq_count (fillVal ml)]
    rw [hstep1, List.map_congr_left (fun v _ => hstep2 v), sum_count_dedupF,
      List.length_map]
  · intro v1 v2 hv r h1 h2
    unfold subsetFor at h1 h2
    by_cases hv1 : v1 = ml
    · rw [if_pos hv1] at h1
      have hb1 := (List.mem_filter.1 h1).2
      have hv2 : ¬v2 = ml := fun h => hv (hv1.trans h.symm)
      rw [if_neg hv2] at h2
      have hb2 := (List.mem_filter.1 h2).2
      simp only [decide_eq_true_eq] at hb2
      simp [hb2] at hb1
    · rw [if_neg hv1] at h1
      have hb1 := (List.mem_filter.1 h1).2
      simp only [decide_eq_true_eq] at hb1
      by_cases hv2 : v2 = ml
      · rw [if_pos hv2] at h2
        have hb2 := (List.mem_filter.1 h2).2
        simp [hb1] at hb2
      · rw [if_neg hv2] at h2
        have hb2 := (List.mem_filter.1 h2).2
        simp only [decide_eq_true_eq] at hb2
        rw [hb1] at hb2
        exact hv (Option.some_injective _ hb2)

/-- Witness for C2: a two-row table (one genuine value, one missing value)
with both rows masked; the reported file counts sum to 2 and the two
subsets are disjoint. -/
theorem c2_values_partition_witness :
    c2rows ≠ [] ∧
    ((maskFilter c2rows [true, true]).map (fun r => r.file)).Nodup ∧
    (∀ r ∈ maskFilter c2rows [true, true], r.value ≠ some "(Unknown)") ∧
    ((values_for_attr c2rows [true, true] "(Unknown)").map
        (fun e => e.nfiles)).sum =
      (maskFilter c2rows [true, true]).length := by
  refine ⟨by decide, by decide, by decide, ?_⟩
  exact (c2_values_partition c2rows [true, true] "(Unknown)" (by decide) (by decide)
    (by decide)).1

theorem updateRow_updateRow (l : List FRow) (k : String) (f g : FRow → FRow)
    (hf : ∀ q, (f q).file = q.file) :
    updateRow (updateRow l k f) k g = updateRow l k (fun q => g (f q)) := by
  unfold updateRow
  rw [List.map_map]
  apply List.map_congr_left
  intro q _
  by_cases h : q.file = k
  · simp [Function.comp, h, hf q]
  · simp [Function.comp, h]

/-- C6.  During sync, a row with a staged rename whose destination already
exists (without overwrite authority) fails early: the whole state except
the error report is untouched — the filesystem is not modified, the staged
rename fields and the dirty flag keep their values — and the remaining
changed rows are still processed. -/
theorem c6_destination_exists (op : Op) (so : Bool) (st : SyncState) (r : FRow)
    (rest : List FRow)
    (hsnap : st.rows.filter (fun q => q.changed) = r :: rest)
    (hdiff : r.newpath.getD r.path ≠ r.path ∨ r.newname.getD r.name ≠ r.name)
    (hex : joinFile (r.newpath.getD r.path) (r.newname.getD r.name) ∈ st.fs) :
    syncRow op false so st r =
      { st with errors :=
          st.errors ++ [joinFile (r.newpath.getD r.path) (r.newname.getD r.name)] } ∧
    sync op false so st =
      List.foldl (syncRow op false so)
        { st with errors :=
            st.errors ++ [joinFile (r.newpath.getD r.path) (r.newname.getD r.name)] }
        rest := by
  have h1 : syncRow op false so st r =
      { st with errors :=
          st.errors ++ [joinFile (r.newpath.getD r.path) (r.newname.getD r.name)] } := by
    simp only [syncRow]
    rw [if_pos ⟨hdiff, hex, by trivial⟩]
  refine ⟨h1, ?_⟩
  rw [sync, hsnap, List.foldl_cons, h1]

/-- Witness for C6: the concrete destination-exists state; the row is
reported, nothing else changes, and the (empty) remainder is still
folded. -/
theorem c6_destination_exists_witness :
    c6state.rows.filter (fun q => q.changed) = c6row :: [] ∧
    (c6row.newpath.getD c6row.path ≠ c6row.path ∨
      c6row.newname.getD c6row.name ≠ c6row.name) ∧
    joinFile (c6row.newpath.getD c6row.path) (c6row.newname.getD c6row.name) ∈
      c6state.fs ∧
    syncRow Op.move false false c6state c6row =
      { c6state with errors := c6state.errors ++
          [joinFile (c6row.newpath.getD c6row.path) (c6row.newname.getD c6row.name)] } := by
  refine ⟨by decide, by decide, by decide, ?_⟩
  exact (c6_destination_exists Op.move false c6state c6row [] (by decide) (by decide)
    (by decide)).1

/-- C10.  A committed `move` renames the row's identity key to the full new
destination path, but the derived parent-directory column `_PATH` keeps the
old directory: the update is written into the newly created lowercase
`_path` column instead, so after a move whose directory really changed,
`_PATH` no longer matches the directory staged for (and recorded in) the
row key. -/
theorem c10_move_keeps_stale_path (so : Bool) (st : SyncState) (r : FRow)
    (hkeys : ∀ q ∈ st.rows, q.file = r.file → q = r)
    (hdiff : r.newpath.getD r.path ≠ r.path ∨ r.newname.getD r.name ≠ r.name)
    (hnex : joinFile (r.newpath.getD r.path) (r.newname.getD r.name) ∉ st.fs) :
    ∃ u : FRow,
      (syncRow Op.move false so st r).rows =
        st.rows.map (fun q => if q.file = r.file then u else q) ∧
      u.file = joinFile (r.newpath.getD r.path) (r.newname.getD r.name) ∧
      u.path = r.path ∧
      u.pathLower = some (r.newpath.getD r.path) ∧
      u.newpath = none ∧ u.newname = none ∧ u.changed = false ∧
      (r.newpath.getD r.path ≠ r.path → u.path ≠ r.newpath.getD r.path) := by
  refine ⟨moveResult r, ?_, rfl, rfl, rfl, rfl, rfl, rfl, fun h => Ne.symm h⟩
  simp only [syncRow]
  rw [if_neg (fun hcond => hnex hcond.2.1), if_pos hdiff,
    if_neg (show ¬(Op.move = Op.symlink) from by decide)]
  simp only [eq_self_iff_true, if_true]
  rw [if_neg (fun hcond => hcond.2 hdiff)]
  unfold updateRow
  simp only [List.map_map]
  apply List.map_congr_left
  intro q hq
  by_cases h : q.file = r.file
  · simp [Function.comp_apply, h, hkeys q hq h, moveResult]
  · simp [Function.comp_apply, h]

/-- Witness for C10: committing the concrete staged move renames the key to
`new/a.fits`, writes `new` into the lowercase column, and leaves `_PATH`
holding `old`. -/
theorem c10_move_keeps_stale_path_witness :
    (∀ q ∈ c10state.rows, q.file = c10row.file → q = c10row) ∧
    (c10row.newpath.getD c10row.path ≠ c10row.path ∨
      c10row.newname.getD c10row.name ≠ c10row.name) ∧
    joinFile (c10row.newpath.getD c10row.path) (c10row.newname.getD c10row.name) ∉
      c10state.fs ∧
    ∃ u : FRow,
      (syncRow Op.move false false c10state c10row).rows =
        c10state.rows.map (fun q => if q.file = c10row.file then u else q) ∧
      u.file = joinFile (c10row.newpath.getD c10row.path)
        (c10row.newname.getD c10row.name) ∧
      u.path = c10row.path ∧
      u.pathLower = some (c10row.newpath.getD c10row.path) ∧
      u.newpath = none ∧ u.newname = none ∧ u.changed = false ∧
      (c10row.newpath.getD c10row.path ≠ c10row.path →
        u.path ≠ c10row.newpath.getD c10row.path) := by
  refine ⟨by decide, by decide, by decide, ?_⟩
  exact c10_move_keeps_stale_path false c10state c10row (by decide) (by decide)
    (by decide)

/-- Counterexample to C8 as stated: on a masked row whose image type has an
empty name-attribute list, planning does *not* leave the row untouched —
`organize` still stages a `_newpath` and marks the row dirty (only
`_newname` stays absent). -/
theorem c8_empty_name_counterexample :
    ¬ (∀ r ∈ organize c8tmpl "cat" [c8row] [true],
        r.newpath = none ∧ r.changed = false) := by decide

/-- C8 (amended).  For a masked row whose image type has an empty
name-attribute list in the reorganize template, planning leaves the
pending-new-name absent, but it still stages the rendered pending-new-path
and marks the row dirty. -/
theorem c8_empty_name_staging (tmpl : String → Template) (rootDir : String)
    (rows : List ORow) (mask : List Bool) (i : ℕ)
    (hi : i < rows.length) (him : i < mask.length)
    (hi2 : i < (organize tmpl rootDir rows mask).length)
    (hm : mask.get ⟨i, him⟩ = true)
    (hempty : (tmpl (rows.get ⟨i, hi⟩).imgtyp).nameAttrs = []) :
    (organize tmpl rootDir rows mask).get ⟨i, hi2⟩ =
      { rows.get ⟨i, hi⟩ with
        newname := none
        newpath := some (renderPath rootDir
          (tmpl (rows.get ⟨i, hi⟩).imgtyp).pathAttrs (rows.get ⟨i, hi⟩))
        changed := true } := by
  simp only [List.get_eq_getElem] at hm hempty ⊢
  simp only [organize, List.getElem_map, List.getElem_zip, hm, hempty]
  simp

/-- Witness for C8: the concrete flat-frame template stages the rendered
path and the dirty flag while leaving the name absent. -/
theorem c8_empty_name_staging_witness :
    ([true] : List Bool).get ⟨0, by decide⟩ = true ∧
    (c8tmpl (([c8row] : List ORow).get ⟨0, by decide⟩).imgtyp).nameAttrs = [] ∧
    (organize c8tmpl "cat" [c8row] [true]).get ⟨0, by decide⟩ =
      { ([c8row] : List ORow).get ⟨0, by decide⟩ with
        newname := none
        newpath := some (renderPath "cat"
          (c8tmpl (([c8row] : List ORow).get ⟨0, by decide⟩).imgtyp).pathAttrs
          (([c8row] : List ORow).get ⟨0, by decide⟩))
        changed := true } := by
  refine ⟨by decide, by decide, ?_⟩
  exact c8_empty_name_staging c8tmpl "cat" [c8row] [true] 0 (by decide) (by decide)
    (by decide) (by decide) (by decide)

theorem roundHalfEven_intCast (z : ℤ) : roundHalfEven ((z : ℤ) : ℚ) = z := by
  simp only [roundHalfEven, Rat.num_intCast, Rat.den_intCast, Int.fdiv_one,
    mul_one, sub_self, mul_zero, Nat.cast_one]
  norm_num

theorem pdRound_zero_intCast (z : ℤ) : pdRound 0 ((z : ℤ) : ℚ) = ((z : ℤ) : ℚ) := by
  have hscale : scalePow10 0 ((z : ℤ) : ℚ) = ((z : ℤ) : ℚ) := by
    simp only [scalePow10, le_refl, if_pos, Int.toNat_zero, pow_zero, mul_one]
    exact Rat.mkRat_self _
  simp only [pdRound, le_refl, if_pos, Int.toNat_zero, pow_zero, hscale,
    roundHalfEven_intCast]
  exact Rat.mkRat_one z

/-- Counterexample to C3 as stated: with a light frame at raw temperature 1
and a dark frame at raw temperature 0 — both already integers — exact
resolution snaps both to the derived string `0C` and reports the single
combination `Available`, while fuzzy resolution at tolerance 0 joins on the
distinct raw values 1 and 0 and reports it `Missing`; the two status
classifications differ. -/
theorem c3_fuzzy_exact_counterexample :
    c3rows.map (fun r => r.ccdtemp) = [some ((1 : ℤ) : ℚ), some ((0 : ℤ) : ℚ)] ∧
    (calibration_frames c3rows [true, true]).map (fun e => e.status) =
      [Status.available] ∧
    (calibration_frames2 c3rows [true, true] 0).map (fun e => e.status) =
      [Status.missing] ∧
    (calibration_frames c3rows [true, true]).map (fun e => e.status) ≠
      (calibration_frames2 c3rows [true, true] 0).map (fun e => e.status) := by
  refine ⟨by decide, by decide, by decide, by decide⟩

theorem maskFilter_map {α β : Type} (f : α → β) (rows : List α) (mask : List Bool) :
    maskFilter (rows.map f) mask = (maskFilter rows mask).map f := by
  induction rows generalizing mask with
  | nil => cases mask <;> simp [maskFilter]
  | cons a as ih =>
    cases mask with
    | nil => simp [maskFilter]
    | cons b bs =>
      cases b
      · simpa [maskFilter] using ih bs
      · simpa [maskFilter] using ih bs

theorem dedupF_map_inj {α β : Type} [DecidableEq α] [DecidableEq β] (f : α → β)
    (l : List α) (hinj : ∀ a ∈ l, ∀ b ∈ l, f a = f b → a = b) :
    dedupF (l.map f) = (dedupF l).map f := by
  induction l with
  | nil => simp [dedupF]
  | cons a as ih =>
    simp only [List.map_cons, dedupF]
    rw [ih (fun x hx y hy => hinj x (List.mem_cons_of_mem a hx) y
      (List.mem_cons_of_mem a hy))]
    congr 1
    rw [List.filter_map]
    congr 1
    apply List.filter_congr
    intro x hx
    have hx' : x ∈ as := (mem_dedupF as x).1 hx
    have hiff : f x = f a ↔ x = a :=
      ⟨fun h => hinj x (List.mem_cons_of_mem a hx') a (List.mem_cons_self a as) h,
        fun h => h ▸ rfl⟩
    simp [Function.comp, hiff]

theorem filterMap_id_map_optionMap {α β : Type} (G : α → β) (l : List (Option α)) :
    (l.map (Option.map G)).filterMap id = (l.filterMap id).map G := by
  induction l with
  | nil => rfl
  | cons x xs ih => cases x <;> simp [ih]

theorem flatMap_congr_mem {α β : Type} (l : List α) (f g : α → List β)
    (h : ∀ a ∈ l, f a = g a) : l.flatMap f = l.flatMap g := by
  induction l with
  | nil => rfl
  | cons a as ih =>
    rw [List.flatMap_cons, List.flatMap_cons, h a (List.mem_cons_self a as),
      ih (fun x hx => h x (List.mem_cons_of_mem a hx))]

theorem target_keys_occurs {κ : Type} [DecidableEq κ] (rows : List (CalRow κ))
    (mask : List Bool) (tgs : List String) (k : κ)
    (hk : k ∈ target_keys rows mask tgs) : ∃ r ∈ rows, r.key = some k := by
  unfold target_keys at hk
  rw [List.mem_filterMap] at hk
  obtain ⟨o, ho, hid⟩ := hk
  rw [mem_dedupF, List.mem_map] at ho
  obtain ⟨r, hr, hkey⟩ := ho
  have hr1 : r ∈ maskFilter rows mask := List.mem_of_mem_filter hr
  exact ⟨r, maskFilter_subset rows mask r hr1, by rw [hkey]; exact hid⟩

theorem calibrationJoin_map_key {κ κ' : Type} [DecidableEq κ] [DecidableEq κ']
    (G : κ → κ') (rows : List (CalRow κ)) (mask : List Bool) (ct : String)
    (tgs : List String)
    (hinj : ∀ r1 ∈ rows, ∀ r2 ∈ rows, ∀ a b : κ, r1.key = some a →
      r2.key = some b → G a = G b → a = b) :
    calibrationJoin (rows.map (calRowMapKey G)) mask ct tgs =
      (calibrationJoin rows mask ct tgs).map (calEntryMapKey G) := by
  have hfilter : (maskFilter (rows.map (calRowMapKey G)) mask).filter
      (fun r => r.imgtyp ∈ tgs) =
      ((maskFilter rows mask).filter (fun r => r.imgtyp ∈ tgs)).map
        (calRowMapKey G) := by
    rw [maskFilter_map, List.filter_map]
    rfl
  have htk : target_keys (rows.map (calRowMapKey G)) mask tgs =
      (target_keys rows mask tgs).map G := by
    unfold target_keys
    rw [hfilter, List.map_map]
    have hkeycomp :
        ((maskFilter rows mask).filter (fun r => r.imgtyp ∈ tgs)).map
          ((fun r : CalRow κ' => r.key) ∘ calRowMapKey G) =
        (((maskFilter rows mask).filter (fun r => r.imgtyp ∈ tgs)).map
          (fun r => r.key)).map (Option.map G) := by
      rw [List.map_map]
      rfl
    rw [hkeycomp]
    have hinjL : ∀ x ∈ ((maskFilter rows mask).filter
        (fun r => r.imgtyp ∈ tgs)).map (fun r => r.key),
        ∀ y ∈ ((maskFilter rows mask).filter
          (fun r => r.imgtyp ∈ tgs)).map (fun r => r.key),
        Option.map G x = Option.map G y → x = y := by
      intro x hx y hy hxy
      rw [List.mem_map] at hx hy
      obtain ⟨r1, hr1, hxr⟩ := hx
      obtain ⟨r2, hr2, hyr⟩ := hy
      have hr1' : r1 ∈ rows :=
        maskFilter_subset rows mask r1 (List.mem_of_mem_filter hr1)
      have hr2' : r2 ∈ rows :=
        maskFilter_subset rows mask r2 (List.mem_of_mem_filter hr2)
      cases hxc : x with
      | none =>
        cases hyc : y with
        | none => rfl
        | some b =>
          rw [hxc, hyc] at hxy
          simp at hxy
      | some a =>
        cases hyc : y with
        | none =>
          rw [hxc, hyc] at hxy
          simp at hxy
        | some b =>
          rw [hxc, hyc] at hxy
          simp only [Option.map_some', Option.some.injEq] at hxy
          have := hinj r1 hr1' r2 hr2' a b (by rw [hxr, hxc]) (by rw [hyr, hyc]) hxy
          rw [this]
    rw [dedupF_map_inj (Option.map G) _ hinjL, filterMap_id_map_optionMap]
  have hcand : cand_rows (rows.map (calRowMapKey G)) ct =
      (cand_rows rows ct).map (calRowMapKey G) := by
    unfold cand_rows
    rw [List.filter_map]
    rfl
  have hpiece : ∀ k ∈ target_keys rows mask tgs,
      joinPiece (rows.map (calRowMapKey G)) ct (G k) =
        (joinPiece rows ct k).map (calEntryMapKey G) := by
    intro k hk
    obtain ⟨r0, hr0, hr0k⟩ := target_keys_occurs rows mask tgs k hk
    have hms : (cand_rows (rows.map (calRowMapKey G)) ct).filter
        (fun c => c.key = some (G k)) =
        ((cand_rows rows ct).filter (fun c => c.key = some k)).map
          (calRowMapKey G) := by
      rw [hcand, List.filter_map]
      congr 1
      apply List.filter_congr
      intro c hc
      have hc' : c ∈ rows := List.mem_of_mem_filter hc
      show decide (Option.map G c.key = some (G k)) = decide (c.key = some k)
      cases hck : c.key with
      | none => rfl
      | some a =>
        have hiff : G a = G k ↔ a = k :=
          ⟨fun h => hinj c hc' r0 hr0 a k hck hr0k h, fun h => h ▸ rfl⟩
        show decide (some (G a) = some (G k)) = decide (some a = some k)
        rw [decide_eq_decide, Option.some_inj, Option.some_inj]
        exact hiff
    unfold joinPiece
    rw [hms]
    by_cases he : ((cand_rows rows ct).filter (fun c => c.key = some k)).isEmpty
    · have he' : (((cand_rows rows ct).filter (fun c => c.key = some k)).map
          (calRowMapKey G)).isEmpty := by
        rw [List.isEmpty_iff] at he ⊢
        rw [he]
        rfl
      rw [if_pos he', if_pos he]
      rfl
    · have he' : ¬(((cand_rows rows ct).filter (fun c => c.key = some k)).map
          (calRowMapKey G)).isEmpty := by
        rw [List.isEmpty_iff] at he ⊢
        intro hmap
        exact he (List.map_eq_nil_iff.1 hmap)
      rw [if_neg he', if_neg he, List.map_map, List.map_map]
      rfl
  rw [calibrationJoin, calibrationJoin, htk, List.flatMap_map, List.map_flatMap]
  exact flatMap_congr_mem _ _ _ hpiece

/-- C3 (amended).  Fuzzy resolution at temperature tolerance 0 and exact
resolution agree — with each fuzzy combination (rounded raw temperature,
binning) relabelled to the corresponding exact combination (derived
temperature string, binning) — provided every row's raw CCD temperature is
present and integer-valued *and* normalization collides no two distinct
occurring temperatures (the derived temperature strings of two rows agree
only when their raw temperatures do).  The collision-freedom hypothesis is
forced by the counterexample: exact resolution joins on the
setpoint-snapped derived string while fuzzy resolution joins on the rounded
raw value, so raw temperatures 0 and 1 (both integers) agree under exact
but not under fuzzy. -/
theorem c3_fuzzy_exact_tol0 (rows : List TRow) (mask : List Bool)
    (hint : ∀ r ∈ rows, ∃ z : ℤ, r.ccdtemp = some ((z : ℤ) : ℚ))
    (hcol : ∀ r1 ∈ rows, ∀ r2 ∈ rows,
      ccdtempStr r1.ccdtemp = ccdtempStr r2.ccdtemp → r1.ccdtemp = r2.ccdtemp) :
    calibration_frames rows mask =
      (calibration_frames2 rows mask 0).map (calEntryMapKey fuzzyToExactKey) := by
  unfold calibration_frames calibration_frames2
  have hrows : rows.map exactRow =
      (rows.map (fuzzyRow 0)).map (calRowMapKey fuzzyToExactKey) := by
    rw [List.map_map]
    apply List.map_congr_left
    intro r hr
    obtain ⟨z, hz⟩ := hint r hr
    show exactRow r = calRowMapKey fuzzyToExactKey (fuzzyRow 0 r)
    unfold exactRow fuzzyRow calRowMapKey
    rw [hz]
    simp only [Option.map_some']
    rw [pdRound_zero_intCast]
    rfl
  rw [hrows]
  apply calibrationJoin_map_key
  intro r1 hr1 r2 hr2 a b ha hb hG
  rw [List.mem_map] at hr1 hr2
  obtain ⟨s1, hs1, rfl⟩ := hr1
  obtain ⟨s2, hs2, rfl⟩ := hr2
  obtain ⟨z1, hz1⟩ := hint s1 hs1
  obtain ⟨z2, hz2⟩ := hint s2 hs2
  unfold fuzzyRow at ha hb
  rw [hz1] at ha
  rw [hz2] at hb
  simp only [Option.map_some', Option.some.injEq] at ha hb
  rw [pdRound_zero_intCast] at ha hb
  rw [← ha, ← hb] at hG ⊢
  unfold fuzzyToExactKey at hG
  simp only [Prod.mk.injEq] at hG ⊢
  have h1 : ccdtempStr s1.ccdtemp = ccdtempStr s2.ccdtemp := by
    rw [hz1, hz2]
    exact hG.1
  have h2 := hcol s1 hs1 s2 hs2 h1
  rw [hz1, hz2] at h2
  simp only [Option.some.injEq] at h2
  exact ⟨h2, hG.2⟩

/-- Witness for C3: on the two-row table whose raw temperatures are both
the integer 0, exact and tolerance-0 fuzzy resolution coincide after
relabelling. -/
theorem c3_fuzzy_exact_tol0_witness :
    (∀ r ∈ c3okrows, ∃ z : ℤ, r.ccdtemp = some ((z : ℤ) : ℚ)) ∧
    (∀ r1 ∈ c3okrows, ∀ r2 ∈ c3okrows,
      ccdtempStr r1.ccdtemp = ccdtempStr r2.ccdtemp → r1.ccdtemp = r2.ccdtemp) ∧
    calibration_frames c3okrows [true, true] =
      (calibration_frames2 c3okrows [true, true] 0).map
        (calEntryMapKey fuzzyToExactKey) := by
  have hint : ∀ r ∈ c3okrows, ∃ z : ℤ, r.ccdtemp = some ((z : ℤ) : ℚ) := by
    intro r hr
    simp only [c3okrows, List.mem_cons, List.not_mem_nil, or_false] at hr
    rcases hr with rfl | rfl
    · exact ⟨0, rfl⟩
    · exact ⟨0, rfl⟩
  exact ⟨hint, by decide,
    c3_fuzzy_exact_tol0 c3okrows [true, true] hint (by decide)⟩

end Ori
